import Mathlib

/-!
# Verification of the job-crawler extraction core

A shallow embedding of the pure logic of `src/crawler.py` together with the
parts of CPython's `urllib.parse` (3.11) that `normalize_href` depends on.
Stateful browser interactions are modelled by explicit environment records
describing the observable answers the page gives to each query the code
performs, and by event logs recording the side effects the code issues.

Modelling conventions:
* Python `str` values are modelled as `List Char`; text is assumed ASCII, so
  `str.lower`, `str.strip`, the regex word class `\w` and the NFKC netloc
  check of `urllib.parse` are modelled by their ASCII restrictions.
* Fallible code (Python code that can raise) returns `Except Unit _`.
* `None`-or-`str` values are modelled as `Option (List Char)`.
-/

namespace Crawler

/-! ## Python string primitives -/

abbrev PyStr := List Char

/-- Characters of a string literal, as the model's string type. -/
def pyChars (s : String) : PyStr := s.data

/-- ASCII model of Python `str.lower` (per character). -/
def lowerChar (c : Char) : Char :=
  if 65 ≤ c.toNat ∧ c.toNat ≤ 90 then Char.ofNat (c.toNat + 32) else c

/-- ASCII model of Python `str.lower`. -/
def pyLower (s : PyStr) : PyStr := s.map lowerChar

/-- ASCII whitespace stripped by Python `str.strip()`. -/
def isPyWs (c : Char) : Bool :=
  c = ' ' || c = '\t' || c = '\n' || c = '\r' || c = '\x0b' || c = '\x0c'

/-- Python `str.lstrip` with an arbitrary character class. -/
def pyLStripBy (p : Char → Bool) (s : PyStr) : PyStr := s.dropWhile p

/-- Python `str.rstrip` with an arbitrary character class. -/
def pyRStripBy (p : Char → Bool) (s : PyStr) : PyStr :=
  (s.reverse.dropWhile p).reverse

/-- Python `str.strip` with an arbitrary character class. -/
def pyStripBy (p : Char → Bool) (s : PyStr) : PyStr :=
  pyRStripBy p (pyLStripBy p s)

/-- Python `str.strip()` (ASCII whitespace). -/
def pyStrip (s : PyStr) : PyStr := pyStripBy isPyWs s

/-- Python substring test `sub in s` (`"" in s` is true). -/
def pyContains (s sub : PyStr) : Bool :=
  sub.isPrefixOf s ||
    match s with
    | [] => false
    | _ :: t => pyContains t sub

/-- Python `s.startswith(p)`. -/
def pyStartsWith (s p : PyStr) : Bool := p.isPrefixOf s

/-! ## Role matching (`is_swe_role`, `_has_token`) -/

/-- ASCII model of the regex word class `\w`. -/
def isWordChar (c : Char) : Bool :=
  ('a' ≤ c && c ≤ 'z') || ('A' ≤ c && c ≤ 'Z') || ('0' ≤ c && c ≤ '9') || c = '_'

/-- A `\b` word boundary holds just before index `i` of `s` (for a token whose
first character is a word character). -/
def boundaryBefore (s : PyStr) (i : Nat) : Bool :=
  i = 0 || !isWordChar (s.getD (i - 1) ' ')

/-- A `\b` word boundary holds just after index `j - 1` of `s` (for a token
whose last character is a word character). -/
def boundaryAfter (s : PyStr) (j : Nat) : Bool :=
  decide (s.length ≤ j) || !isWordChar (s.getD j ' ')

/-- Model of `re.search(rf"\b{re.escape(tok)}\b", s)` for the alphabetic
tokens this crawler feeds to the word-boundary branch of `_has_token`. -/
def wordBoundarySearch (s tok : PyStr) : Bool :=
  (List.range (s.length + 1)).any fun i =>
    tok.isPrefixOf (s.drop i) && boundaryBefore s i && boundaryAfter s (i + tok.length)

/-- `ROLE_WORDS` from `crawler.py`. -/
def ROLE_WORDS : List PyStr :=
  [pyChars "engineer", pyChars "developer", pyChars "programmer", pyChars "swe",
   pyChars "sde", pyChars "software engineer", pyChars "software developer"]

/-- `DOMAIN_WORDS` from `crawler.py`. -/
def DOMAIN_WORDS : List PyStr :=
  [pyChars "software", pyChars "backend", pyChars "back-end", pyChars "full stack",
   pyChars "full-stack", pyChars "platform", pyChars "systems", pyChars "infrastructure",
   pyChars "cloud", pyChars "distributed", pyChars "services", pyChars ".net",
   pyChars "dotnet", pyChars "c#", pyChars "csharp", pyChars "api"]

/-- The special tokens `("c#", ".net", "dotnet", "csharp")` of `_has_token`. -/
def specialToks : List PyStr :=
  [pyChars "c#", pyChars ".net", pyChars "dotnet", pyChars "csharp"]

/-- `_has_token(text, token)` from `crawler.py`. -/
def hasToken (text token : PyStr) : Bool :=
  let t := pyLower text
  let tok := pyStripBy isPyWs (pyLower token)
  if specialToks.contains tok then pyContains t tok
  else if tok.contains ' ' || tok.contains '-' then pyContains t tok
  else wordBoundarySearch t tok

/-- `is_swe_role(text)` from `crawler.py`. -/
def is_swe_role (text : PyStr) : Bool :=
  if text = [] then false
  else
    let t := pyLower (pyStrip text)
    if t.length < 3 then false
    else ROLE_WORDS.any (fun w => hasToken t w) && DOMAIN_WORDS.any (fun w => hasToken t w)

/-- Token-matching rule exactly as the specification words it: tokens with a
space or hyphen and the special symbol tokens match as literal substrings,
every other token matches only at a whole-word boundary. -/
def specTokenMatch (t tok : PyStr) : Bool :=
  if tok.contains ' ' || tok.contains '-' || specialToks.contains tok then pyContains t tok
  else wordBoundarySearch t tok

/-- The classification predicate as the specification words it: non-empty
text whose trimmed lowercased form has length at least three and contains at
least one ROLE token and at least one DOMAIN token. -/
def sweRoleSpec (text : PyStr) : Bool :=
  let t := pyLower (pyStrip text)
  !text.isEmpty && decide (3 ≤ t.length) &&
    ROLE_WORDS.any (fun w => specTokenMatch t w) &&
    DOMAIN_WORDS.any (fun w => specTokenMatch t w)

/-! ### Lemmas for the role matcher -/

lemma toNat_ofNat_of_lt (n : Nat) (h : n < 0xd800) : (Char.ofNat n).toNat = n := by
  unfold Char.ofNat
  rw [dif_pos (Or.inl h)]
  rfl

lemma lowerChar_idem (c : Char) : lowerChar (lowerChar c) = lowerChar c := by
  unfold lowerChar
  by_cases h : 65 ≤ c.toNat ∧ c.toNat ≤ 90
  · rw [if_pos h]
    have hv : (Char.ofNat (c.toNat + 32)).toNat = c.toNat + 32 :=
      toNat_ofNat_of_lt _ (by omega)
    rw [if_neg (by rw [hv]; omega)]
  · rw [if_neg h, if_neg h]

lemma pyLower_idem (s : PyStr) : pyLower (pyLower s) = pyLower s := by
  unfold pyLower
  rw [List.map_map]
  exact List.map_congr_left fun c _ => lowerChar_idem c

lemma hasToken_eq_specTokenMatch (t w : PyStr) (ht : pyLower t = t)
    (hw : pyStripBy isPyWs (pyLower w) = w) :
    hasToken t w = specTokenMatch t w := by
  unfold hasToken specTokenMatch
  rw [ht, hw]
  by_cases h1 : w ∈ specialToks
  · simp [h1]
  · by_cases h2 : ' ' ∈ w ∨ '-' ∈ w
    · simp [h1, h2]
    · simp [h1, h2]

lemma any_hasToken_eq (ws : List PyStr) (t : PyStr) (ht : pyLower t = t)
    (hws : ws.all (fun w => pyStripBy isPyWs (pyLower w) == w) = true) :
    ws.any (fun w => hasToken t w) = ws.any (fun w => specTokenMatch t w) := by
  induction ws with
  | nil => rfl
  | cons w rest ih =>
    simp only [List.all_cons, Bool.and_eq_true, beq_iff_eq] at hws
    simp only [List.any_cons]
    rw [hasToken_eq_specTokenMatch t w ht hws.1, ih hws.2]

/-- C4: `is_swe_role(text)` returns true iff text is non-empty, its trimmed
lowercased form has length at least 3, and it contains at least one ROLE token
and at least one DOMAIN token under the per-class matching rule (substring for
space/hyphen and special tokens, whole-word boundary otherwise); in particular
"Software Engineer" → true, "Senior Designer" → false, "C# Developer" → true,
"engineering manager" → false, "Platform SDE" → true, and any text missing a
role or a domain token → false (by the equivalence). -/
theorem is_swe_role_correct :
    (∀ text, is_swe_role text = sweRoleSpec text) ∧
    is_swe_role (pyChars "Software Engineer") = true ∧
    is_swe_role (pyChars "Senior Designer") = false ∧
    is_swe_role (pyChars "C# Developer") = true ∧
    is_swe_role (pyChars "engineering manager") = false ∧
    is_swe_role (pyChars "Platform SDE") = true := by
  refine ⟨fun text => ?_, by decide, by decide, by decide, by decide, by decide⟩
  unfold is_swe_role sweRoleSpec
  by_cases h : text = []
  · subst h; decide
  · rw [if_neg h]
    have ht : pyLower (pyLower (pyStrip text)) = pyLower (pyStrip text) :=
      pyLower_idem _
    by_cases hl : (pyLower (pyStrip text)).length < 3
    · rw [if_pos hl]
      have h3 : ¬ (3 ≤ (pyLower (pyStrip text)).length) := by omega
      simp [h3]
    · rw [if_neg hl]
      have h3 : 3 ≤ (pyLower (pyStrip text)).length := by omega
      have hr := any_hasToken_eq ROLE_WORDS (pyLower (pyStrip text)) ht (by decide)
      have hd := any_hasToken_eq DOMAIN_WORDS (pyLower (pyStrip text)) ht (by decide)
      have hne : text.isEmpty = false := by
        cases text with
        | nil => exact absurd rfl h
        | cons a l => rfl
      simp [h3, hr, hd, hne]

/-! ## CPython `urllib.parse` model (3.11), as used by `normalize_href`

Faithful to `urlsplit`/`urlparse`/`urljoin`/`urldefrag`/`urlunparse` of
CPython 3.11 on ASCII input, with two documented abstractions: the NFKC
netloc check is the identity on ASCII, and the content validation of a
balanced bracketed IPv6 host is omitted (bracket balance itself is checked
and raises, modelled by `Except.error`). -/

deriving instance DecidableEq for Except

/-- Characters the WHATWG basic URL parser strips (code points 0x00–0x20). -/
def isC0OrSpace (c : Char) : Bool := c.toNat ≤ 32

/-- `_UNSAFE_URL_BYTES_TO_REMOVE` = tab, CR, LF. -/
def isUnsafeUrlByte (c : Char) : Bool := c = '\t' || c = '\r' || c = '\n'

/-- `urlsplit`'s input cleaning of the url argument: lstrip C0-control-or-space,
then remove tab/CR/LF everywhere. -/
def cleanUrlInput (s : PyStr) : PyStr :=
  (pyLStripBy isC0OrSpace s).filter (fun c => !isUnsafeUrlByte c)

/-- `urlsplit`'s cleaning of the default-scheme argument: strip on both sides,
then remove tab/CR/LF. -/
def cleanSchemeArg (s : PyStr) : PyStr :=
  (pyStripBy isC0OrSpace s).filter (fun c => !isUnsafeUrlByte c)

/-- `scheme_chars` of `urllib.parse`. -/
def schemeChar (c : Char) : Bool :=
  ('a' ≤ c && c ≤ 'z') || ('A' ≤ c && c ≤ 'Z') || ('0' ≤ c && c ≤ '9') ||
    c = '+' || c = '-' || c = '.'

def isAsciiAlpha (c : Char) : Bool := ('a' ≤ c && c ≤ 'z') || ('A' ≤ c && c ≤ 'Z')

/-- `uses_relative` of `urllib.parse`. -/
def usesRelative : List PyStr :=
  [pyChars "", pyChars "ftp", pyChars "http", pyChars "gopher", pyChars "nntp",
   pyChars "imap", pyChars "wais", pyChars "file", pyChars "https", pyChars "shttp",
   pyChars "mms", pyChars "prospero", pyChars "rtsp", pyChars "rtsps", pyChars "rtspu",
   pyChars "sftp", pyChars "svn", pyChars "svn+ssh", pyChars "ws", pyChars "wss"]

/-- `uses_netloc` of `urllib.parse`. -/
def usesNetloc : List PyStr :=
  [pyChars "", pyChars "ftp", pyChars "http", pyChars "gopher", pyChars "nntp",
   pyChars "telnet", pyChars "imap", pyChars "wais", pyChars "file", pyChars "mms",
   pyChars "https", pyChars "shttp", pyChars "snews", pyChars "prospero", pyChars "rtsp",
   pyChars "rtsps", pyChars "rtspu", pyChars "rsync", pyChars "svn", pyChars "svn+ssh",
   pyChars "sftp", pyChars "nfs", pyChars "git", pyChars "git+ssh", pyChars "ws",
   pyChars "wss"]

/-- `uses_params` of `urllib.parse`. -/
def usesParams : List PyStr :=
  [pyChars "", pyChars "ftp", pyChars "hdl", pyChars "prospero", pyChars "http",
   pyChars "imap", pyChars "https", pyChars "shttp", pyChars "rtsp", pyChars "rtsps",
   pyChars "rtspu", pyChars "sip", pyChars "sips", pyChars "mms", pyChars "sftp",
   pyChars "tel"]

/-- Split at the first occurrence of `c`: `(before, after)`; if `c` does not
occur this is `(s, [])`, matching Python `s.split(c, 1)` under the call sites'
containment guards. -/
def splitAtFirst (s : PyStr) (c : Char) : PyStr × PyStr :=
  (s.takeWhile (· ≠ c), (s.dropWhile (· ≠ c)).drop 1)

/-- First index of `c` at position `start` or later (Python `s.find(c, start)`
when the result is non-negative). -/
def idxOfFrom (s : PyStr) (c : Char) (start : Nat) : Option Nat :=
  match (s.drop start).findIdx? (· = c) with
  | some j => some (start + j)
  | none => none

/-- Index of the last occurrence of `c` (Python `s.rfind(c)`); call sites
guarantee presence. -/
def lastIdxOf (s : PyStr) (c : Char) : Nat :=
  s.length - 1 - ((s.reverse.findIdx? (· = c)).getD 0)

/-- Scheme detection step of `urlsplit`: first `:` after a leading ASCII-alpha
run of scheme characters; otherwise the default scheme is used. -/
def splitScheme (url dflt : PyStr) : PyStr × PyStr :=
  match url.findIdx? (· = ':') with
  | some i =>
    if 0 < i ∧ isAsciiAlpha (url.getD 0 ' ') = true ∧ (url.take i).all schemeChar
    then (pyLower (url.take i), url.drop (i + 1))
    else (dflt, url)
  | none => (dflt, url)

/-- `_splitnetloc(url, 2)`: authority up to the first `/`, `?` or `#`. -/
def splitNetloc (url : PyStr) : PyStr × PyStr :=
  let tail := url.drop 2
  let stop : Char → Bool := fun c => c = '/' || c = '?' || c = '#'
  (tail.takeWhile (fun c => !stop c), tail.dropWhile (fun c => !stop c))

structure SplitResult where
  scheme : PyStr
  netloc : PyStr
  path : PyStr
  query : PyStr
  fragment : PyStr
deriving Repr, DecidableEq

structure ParseResult where
  scheme : PyStr
  netloc : PyStr
  path : PyStr
  params : PyStr
  query : PyStr
  fragment : PyStr
deriving Repr, DecidableEq

/-- `urlsplit(url, scheme)` with `allow_fragments=True` (all uses here). -/
def urlsplit (url scheme₀ : PyStr) : Except Unit SplitResult :=
  let url1 := cleanUrlInput url
  let dflt := cleanSchemeArg scheme₀
  let scheme := (splitScheme url1 dflt).1
  let url2 := (splitScheme url1 dflt).2
  if pyStartsWith url2 (pyChars "//") then
    let netloc := (splitNetloc url2).1
    let rest := (splitNetloc url2).2
    if (netloc.contains '[' && !netloc.contains ']') ||
        (netloc.contains ']' && !netloc.contains '[') then .error ()
    else
      let noFrag := (splitAtFirst rest '#').1
      let fragment := (splitAtFirst rest '#').2
      let path := (splitAtFirst noFrag '?').1
      let query := (splitAtFirst noFrag '?').2
      .ok ⟨scheme, netloc, path, query, fragment⟩
  else
    let noFrag := (splitAtFirst url2 '#').1
    let fragment := (splitAtFirst url2 '#').2
    let path := (splitAtFirst noFrag '?').1
    let query := (splitAtFirst noFrag '?').2
    .ok ⟨scheme, [], path, query, fragment⟩

/-- `_splitparams(url)`; call sites guarantee `;` occurs in `url`. -/
def splitParams (url : PyStr) : PyStr × PyStr :=
  if url.contains '/' then
    match idxOfFrom url ';' (lastIdxOf url '/') with
    | none => (url, [])
    | some i => (url.take i, url.drop (i + 1))
  else
    match url.findIdx? (· = ';') with
    | none => (url, [])
    | some i => (url.take i, url.drop (i + 1))

/-- `urlparse(url, scheme)` with `allow_fragments=True`. -/
def urlparse (url scheme₀ : PyStr) : Except Unit ParseResult := do
  let s ← urlsplit url scheme₀
  let (path, params) :=
    if s.scheme ∈ usesParams ∧ s.path.contains ';' = true then splitParams s.path
    else (s.path, [])
  .ok ⟨s.scheme, s.netloc, path, params, s.query, s.fragment⟩

/-- `urlunsplit((scheme, netloc, path, query, fragment))`. -/
def urlunsplit (scheme netloc path query fragment : PyStr) : PyStr :=
  let url := path
  let url :=
    if netloc ≠ [] ∨ (scheme ≠ [] ∧ scheme ∈ usesNetloc ∧ ¬ pyStartsWith url (pyChars "//"))
    then
      let url1 := if url ≠ [] ∧ url.getD 0 ' ' ≠ '/' then '/' :: url else url
      pyChars "//" ++ netloc ++ url1
    else url
  let url := if scheme ≠ [] then scheme ++ ':' :: url else url
  let url := if query ≠ [] then url ++ '?' :: query else url
  if fragment ≠ [] then url ++ '#' :: fragment else url

/-- `urlunparse((scheme, netloc, path, params, query, fragment))`. -/
def urlunparse (scheme netloc path params query fragment : PyStr) : PyStr :=
  let path := if params ≠ [] then path ++ ';' :: params else path
  urlunsplit scheme netloc path query fragment

/-- Python `s.split(c)` on lists: always non-empty, `""` splits to `[""]`. -/
def splitOnChar (s : PyStr) (c : Char) : List PyStr :=
  match s with
  | [] => [[]]
  | a :: rest =>
    let r := splitOnChar rest c
    if a = c then [] :: r
    else
      match r with
      | [] => [[a]]
      | h :: t => (a :: h) :: t

/-- The `segments[1:-1] = filter(None, segments[1:-1])` step of `urljoin`. -/
def filterMiddle (s : List PyStr) : List PyStr :=
  match s with
  | [] => []
  | [a] => [a]
  | a :: rest =>
    match rest.getLast? with
    | none => [a]
    | some l => a :: (rest.dropLast.filter (fun x => x ≠ [])) ++ [l]

/-- The dot-segment resolution loop of `urljoin`. -/
def resolveSegs : List PyStr → List PyStr → List PyStr
  | [], acc => acc
  | s :: rest, acc =>
    if s = pyChars ".." then resolveSegs rest acc.dropLast
    else if s = pyChars "." then resolveSegs rest acc
    else resolveSegs rest (acc ++ [s])

/-- `urljoin(base, url)` with `allow_fragments=True`. -/
def urljoin (base url : PyStr) : Except Unit PyStr :=
  if base = [] then .ok url
  else if url = [] then .ok base
  else do
    let b ← urlparse base []
    let r ← urlparse url b.scheme
    if r.scheme ≠ b.scheme ∨ r.scheme ∉ usesRelative then .ok url
    else if r.scheme ∈ usesNetloc ∧ r.netloc ≠ [] then
      .ok (urlunparse r.scheme r.netloc r.path r.params r.query r.fragment)
    else
      let netloc := if r.scheme ∈ usesNetloc then b.netloc else r.netloc
      if r.path = [] ∧ r.params = [] then
        let query := if r.query = [] then b.query else r.query
        .ok (urlunparse r.scheme netloc b.path b.params query r.fragment)
      else
        let baseParts0 := splitOnChar b.path '/'
        let baseParts :=
          if baseParts0.getLast? ≠ some [] then baseParts0.dropLast else baseParts0
        let segments :=
          if r.path.getD 0 ' ' = '/' then splitOnChar r.path '/'
          else filterMiddle (baseParts ++ splitOnChar r.path '/')
        let resolved := resolveSegs segments []
        let resolved :=
          if segments.getLast? = some (pyChars ".") ∨ segments.getLast? = some (pyChars "..")
          then resolved ++ [[]] else resolved
        let path := List.intercalate [('/' : Char)] resolved
        let path := if path = [] then pyChars "/" else path
        .ok (urlunparse r.scheme netloc path r.params r.query r.fragment)

/-- `urldefrag(url)`, first component of the returned pair. -/
def urldefrag (url : PyStr) : Except Unit PyStr :=
  if url.contains '#' then do
    let p ← urlparse url []
    .ok (urlunparse p.scheme p.netloc p.path p.params p.query [])
  else .ok url

/-! ## `normalize_href` from `crawler.py` -/

def normalize_href (baseUrl href : PyStr) : Except Unit (Option PyStr) :=
  if href = [] then .ok none
  else if pyStartsWith (pyLower (pyStrip href)) (pyChars "#") ||
      pyStartsWith (pyLower (pyStrip href)) (pyChars "javascript:") ||
      pyStartsWith (pyLower (pyStrip href)) (pyChars "mailto:") ||
      pyStartsWith (pyLower (pyStrip href)) (pyChars "tel:")
  then .ok none
  else do
    let u ← urljoin baseUrl (pyStrip href)
    let d ← urldefrag u
    .ok (some d)

/-! ### `normalize_href` lemmas -/

/-- The rejection test of `normalize_href` as the specification words it:
empty href, or trimmed lowercased href starting with `#`, `javascript:`,
`mailto:` or `tel:`. -/
def hrefRejected (href : PyStr) : Bool :=
  href.isEmpty ||
    (let lw := pyLower (pyStrip href)
     pyStartsWith lw (pyChars "#") || pyStartsWith lw (pyChars "javascript:") ||
       pyStartsWith lw (pyChars "mailto:") || pyStartsWith lw (pyChars "tel:"))

lemma lowerChar_eq_hash {c : Char} (h : lowerChar c = '#') : c = '#' := by
  unfold lowerChar at h
  by_cases hu : 65 ≤ c.toNat ∧ c.toNat ≤ 90
  · rw [if_pos hu] at h
    have h2 := congrArg Char.toNat h
    rw [toNat_ofNat_of_lt _ (by omega)] at h2
    have h3 : ('#' : Char).toNat = 35 := rfl
    exfalso
    omega
  · rwa [if_neg hu] at h

lemma noHash_pyLower {l : PyStr} (h : '#' ∉ l) : '#' ∉ pyLower l := by
  intro hm
  rcases List.mem_map.mp hm with ⟨c, hc, hlc⟩
  exact h (lowerChar_eq_hash hlc ▸ hc)

lemma noHash_splitAtFirstHash (s : PyStr) : '#' ∉ (splitAtFirst s '#').1 := by
  intro hm
  have := List.mem_takeWhile_imp hm
  simp at this

lemma noHash_take {l : PyStr} (i : Nat) (h : '#' ∉ l) : '#' ∉ l.take i :=
  fun hm => h (List.take_subset i l hm)

lemma noHash_drop {l : PyStr} (i : Nat) (h : '#' ∉ l) : '#' ∉ l.drop i :=
  fun hm => h (List.drop_subset i l hm)

lemma noHash_takeWhile {l : PyStr} (p : Char → Bool) (h : '#' ∉ l) :
    '#' ∉ l.takeWhile p :=
  fun hm => h ((List.takeWhile_sublist p).subset hm)

lemma noHash_dropWhile {l : PyStr} (p : Char → Bool) (h : '#' ∉ l) :
    '#' ∉ l.dropWhile p :=
  fun hm => h ((List.dropWhile_sublist p).subset hm)

lemma splitScheme_fst_noHash (u d : PyStr) (hd : '#' ∉ d) :
    '#' ∉ (splitScheme u d).1 := by
  unfold splitScheme
  split
  · split
    next hc =>
      refine noHash_pyLower fun hm => ?_
      have := List.all_eq_true.mp hc.2.2 _ hm
      simp [schemeChar] at this
    next => exact hd
  · exact hd

lemma cleanSchemeArg_nil : cleanSchemeArg [] = [] := rfl

/-- Every component produced by `urlsplit url []` is free of `#`. -/
lemma urlsplit_noHash {url : PyStr} {sp : SplitResult}
    (h : urlsplit url [] = .ok sp) :
    '#' ∉ sp.scheme ∧ '#' ∉ sp.netloc ∧ '#' ∉ sp.path ∧ '#' ∉ sp.query := by
  have hsch : '#' ∉ (splitScheme (cleanUrlInput url) (cleanSchemeArg [])).1 :=
    splitScheme_fst_noHash _ _ (by rw [cleanSchemeArg_nil]; simp)
  have hnet : ∀ u2 : PyStr, '#' ∉ (splitNetloc u2).1 := by
    intro u2 hm
    have := List.mem_takeWhile_imp hm
    simp at this
  simp only [urlsplit] at h
  split at h
  · split at h
    · exact absurd h (by simp)
    · injection h with h
      subst h
      exact ⟨hsch, hnet _,
        noHash_takeWhile _ (noHash_splitAtFirstHash _),
        noHash_drop _ (noHash_dropWhile _ (noHash_splitAtFirstHash _))⟩
  · injection h with h
    subst h
    exact ⟨hsch, by simp,
      noHash_takeWhile _ (noHash_splitAtFirstHash _),
      noHash_drop _ (noHash_dropWhile _ (noHash_splitAtFirstHash _))⟩

/-- Every component produced by `urlparse url []` is free of `#`. -/
lemma urlparse_noHash {url : PyStr} {p : ParseResult}
    (h : urlparse url [] = .ok p) :
    '#' ∉ p.scheme ∧ '#' ∉ p.netloc ∧ '#' ∉ p.path ∧ '#' ∉ p.params ∧ '#' ∉ p.query := by
  unfold urlparse at h
  cases hs : urlsplit url [] with
  | error e => rw [hs] at h; exact absurd h (by simp [Bind.bind, Except.bind])
  | ok sp =>
    rw [hs] at h
    obtain ⟨h1, h2, h3, h4⟩ := urlsplit_noHash hs
    simp only [Bind.bind, Except.bind] at h
    by_cases hcond : sp.scheme ∈ usesParams ∧ sp.path.contains ';' = true
    · rw [if_pos hcond] at h
      injection h with h
      subst h
      refine ⟨h1, h2, ?_, ?_, h4⟩ <;>
        · unfold splitParams
          split
          · cases hfi : idxOfFrom sp.path ';' (lastIdxOf sp.path '/') with
            | none =>
              simp only [hfi]
              first
              | exact h3
              | simp
            | some i =>
              simp only [hfi]
              first
              | exact noHash_take _ h3
              | exact noHash_drop _ h3
          · cases hfi : sp.path.findIdx? (· = ';') with
            | none =>
              simp only [hfi]
              first
              | exact h3
              | simp
            | some i =>
              simp only [hfi]
              first
              | exact noHash_take _ h3
              | exact noHash_drop _ h3
    · rw [if_neg hcond] at h
      injection h with h
      subst h
      exact ⟨h1, h2, h3, by simp, h4⟩

/-- `urlunsplit` with an empty fragment never introduces `#`. -/
lemma urlunsplit_noHash {s n p q : PyStr}
    (hs : '#' ∉ s) (hn : '#' ∉ n) (hp : '#' ∉ p) (hq : '#' ∉ q) :
    '#' ∉ urlunsplit s n p q [] := by
  have hslash : '#' ∉ pyChars "//" := by decide
  have step1 : ∀ u : PyStr, '#' ∉ u →
      '#' ∉ (if u ≠ [] ∧ u.getD 0 ' ' ≠ '/' then '/' :: u else u) := by
    intro u hu
    split
    · simp [hu]
    · exact hu
  have step2 : '#' ∉
      (if n ≠ [] ∨ (s ≠ [] ∧ s ∈ usesNetloc ∧ ¬ pyStartsWith p (pyChars "//"))
       then pyChars "//" ++ n ++ (if p ≠ [] ∧ p.getD 0 ' ' ≠ '/' then '/' :: p else p)
       else p) := by
    split
    · simp only [List.mem_append]
      push_neg
      exact ⟨⟨hslash, hn⟩, step1 p hp⟩
    · exact hp
  unfold urlunsplit
  simp only [ne_eq, not_false_eq_true]
  set mid := (if n ≠ [] ∨ (s ≠ [] ∧ s ∈ usesNetloc ∧ ¬ pyStartsWith p (pyChars "//"))
       then pyChars "//" ++ n ++ (if p ≠ [] ∧ p.getD 0 ' ' ≠ '/' then '/' :: p else p)
       else p) with hmid
  have step3 : '#' ∉ (if s ≠ [] then s ++ ':' :: mid else mid) := by
    split
    · simp [hs, step2]
    · exact step2
  set mid2 := (if s ≠ [] then s ++ ':' :: mid else mid) with hmid2
  have step4 : '#' ∉ (if q ≠ [] then mid2 ++ '?' :: q else mid2) := by
    split
    · simp [hq, step3]
    · exact step3
  simpa using step4

/-- `urlunparse` with an empty fragment never introduces `#`. -/
lemma urlunparse_noHash {s n p par q : PyStr}
    (hs : '#' ∉ s) (hn : '#' ∉ n) (hp : '#' ∉ p) (hpar : '#' ∉ par) (hq : '#' ∉ q) :
    '#' ∉ urlunparse s n p par q [] := by
  unfold urlunparse
  split
  · exact urlunsplit_noHash hs hn (by simp [hp, hpar]) hq
  · exact urlunsplit_noHash hs hn hp hq

/-- The defragmented URL returned by `urldefrag` contains no `#`. -/
lemma urldefrag_noHash {j u : PyStr} (h : urldefrag j = .ok u) : '#' ∉ u := by
  unfold urldefrag at h
  split at h
  · cases hp : urlparse j [] with
    | error e => rw [hp] at h; exact absurd h (by simp [Bind.bind, Except.bind])
    | ok p =>
      rw [hp] at h
      simp only [Bind.bind, Except.bind] at h
      injection h with h
      subst h
      obtain ⟨h1, h2, h3, h4, h5⟩ := urlparse_noHash hp
      exact urlunparse_noHash h1 h2 h3 h4 h5
  next hc =>
    injection h with h
    subst h
    intro hm
    exact hc (by simpa [List.contains] using List.elem_iff.mpr hm)

/-- C7: the null-iff characterization of `normalize_href`, the decomposition
of every returned URL as resolve-then-defragment, the fact that returned URLs
carry no fragment, and the worked examples from the specification. -/
theorem normalize_href_correct :
    (∀ base href, normalize_href base href = .ok none ↔ hrefRejected href = true) ∧
    (∀ base href u, normalize_href base href = .ok (some u) →
      (∃ j, urljoin base (pyStrip href) = .ok j ∧ urldefrag j = .ok u) ∧ '#' ∉ u) ∧
    normalize_href (pyChars "https://x.com/a/") (pyChars "b?id=1#frag") =
      .ok (some (pyChars "https://x.com/a/b?id=1")) ∧
    normalize_href (pyChars "https://x.com/a/") (pyChars "javascript:void(0)") = .ok none ∧
    normalize_href (pyChars "https://x.com/a/") (pyChars "#top") = .ok none := by
  refine ⟨fun base href => ?_, fun base href u h => ?_, by decide, by decide, by decide⟩
  · unfold normalize_href hrefRejected
    by_cases he : href = []
    · subst he; simp
    · rw [if_neg he]
      have hne : href.isEmpty = false := by
        cases href with
        | nil => exact absurd rfl he
        | cons a l => rfl
      by_cases hc : (pyStartsWith (pyLower (pyStrip href)) (pyChars "#") ||
          pyStartsWith (pyLower (pyStrip href)) (pyChars "javascript:") ||
          pyStartsWith (pyLower (pyStrip href)) (pyChars "mailto:") ||
          pyStartsWith (pyLower (pyStrip href)) (pyChars "tel:")) = true
      · simp [hc, hne]
      · rw [Bool.not_eq_true] at hc
        simp only [hc, hne, Bool.false_eq_true, if_false, Bool.or_eq_true, false_or]
        cases hj : urljoin base (pyStrip href) with
        | error e => simp [Bind.bind, Except.bind, hj]
        | ok j =>
          cases hd : urldefrag j with
          | error e => simp [Bind.bind, Except.bind, hj, hd]
          | ok d => simp [Bind.bind, Except.bind, hj, hd]
  · unfold normalize_href at h
    split at h
    · exact absurd h (by simp)
    · split at h
      · exact absurd h (by simp)
      · simp only [Bind.bind, Except.bind] at h
        cases hj : urljoin base (pyStrip href) with
        | error e => simp [hj] at h
        | ok j =>
          simp only [hj] at h
          cases hd : urldefrag j with
          | error e => simp [hd] at h
          | ok d =>
            simp only [hd] at h
            injection h with h
            injection h with h
            subst h
            exact ⟨⟨j, rfl, hd⟩, urldefrag_noHash hd⟩

/-- Witness for `normalize_href_correct`, at the concrete example inputs. -/
theorem normalize_href_correct_witness :
    hrefRejected (pyChars "#top") = true ∧ '#' ∉ pyChars "https://x.com/a/b?id=1" := by
  constructor
  · exact (normalize_href_correct.1 (pyChars "https://x.com/a/") (pyChars "#top")).mp
      (by decide)
  · exact (normalize_href_correct.2.1 (pyChars "https://x.com/a/")
      (pyChars "b?id=1#frag") (pyChars "https://x.com/a/b?id=1") (by decide)).2

lemma pyStrip_of_allWs {href : PyStr} (h : href.all isPyWs = true) :
    pyStrip href = [] := by
  unfold pyStrip pyStripBy pyLStripBy pyRStripBy
  have : href.dropWhile isPyWs = [] :=
    List.dropWhile_eq_nil_iff.mpr fun x hx => List.all_eq_true.mp h x hx
  rw [this]
  rfl

/-- C10: a non-empty, all-whitespace href is not rejected (the emptiness test
runs before trimming); it resolves to the base, so `normalize_href` returns
the defragmented base — in particular exactly `base` whenever `base` carries
no fragment. -/
theorem normalize_href_whitespace_href (base href : PyStr)
    (h0 : href ≠ []) (h1 : href.all isPyWs = true) :
    normalize_href base href = (urldefrag base).map (fun d => some d) ∧
    ('#' ∉ base → normalize_href base href = .ok (some base)) := by
  have hstrip : pyStrip href = [] := pyStrip_of_allWs h1
  have hmain : normalize_href base href = (urldefrag base).map (fun d => some d) := by
    unfold normalize_href
    rw [if_neg h0, hstrip]
    simp only [pyLower, List.map_nil]
    rw [if_neg (by decide)]
    unfold urljoin
    by_cases hb : base = []
    · subst hb
      simp [Bind.bind, Except.bind, Except.map, urldefrag, List.contains]
    · rw [if_neg hb, if_pos rfl]
      cases hd : urldefrag base with
      | error e => simp [Bind.bind, Except.bind, Except.map, hd]
      | ok d => simp [Bind.bind, Except.bind, Except.map, hd]
  refine ⟨hmain, fun hhash => ?_⟩
  have hdb : urldefrag base = .ok base := by
    unfold urldefrag
    rw [if_neg ?_]
    intro hcb
    exact absurd (List.elem_iff.mp (by simpa [List.contains] using hcb)) hhash
  rw [hmain, hdb]
  rfl

/-- Witness for `normalize_href_whitespace_href` at a concrete fragment-bearing
base and a whitespace-only href. -/
theorem normalize_href_whitespace_href_witness :
    normalize_href (pyChars "https://x.com/a#frag") (pyChars " ") =
      .ok (some (pyChars "https://x.com/a")) := by
  have h := (normalize_href_whitespace_href (pyChars "https://x.com/a#frag")
    (pyChars " ") (by decide) (by decide)).1
  rw [h]
  decide

/-- C9 counterexample: idempotence fails as universally stated. With the
relative base `"a/c"`, the href `"b"` normalizes to `"a/b"`, but re-normalizing
`"a/b"` against the same base yields `"a/a/b"` (path merging applies again). -/
theorem normalize_href_idem_counterexample :
    normalize_href (pyChars "a/c") (pyChars "b") = .ok (some (pyChars "a/b")) ∧
    normalize_href (pyChars "a/c") (pyChars "a/b") = .ok (some (pyChars "a/a/b")) ∧
    pyChars "a/b" ≠ pyChars "a/a/b" := by
  refine ⟨by decide, by decide, by decide⟩

/-- C9 (amended): `normalize_href` is idempotent on outputs `u` that are
trimmed, fragment-free, not junk-rejected, and parse against a non-empty base
to the base's own scheme (a scheme using relative resolution and netloc) with
a non-empty authority, re-serializing verbatim — the shape of every ordinary
absolute http(s) output. Unrestricted idempotence fails
(`normalize_href_idem_counterexample`). -/
theorem normalize_href_idem_amended (base href u : PyStr)
    (_hout : normalize_href base href = .ok (some u))
    (hne : u ≠ [])
    (hstrip : pyStrip u = u)
    (hjunk : (pyStartsWith (pyLower u) (pyChars "#") ||
        pyStartsWith (pyLower u) (pyChars "javascript:") ||
        pyStartsWith (pyLower u) (pyChars "mailto:") ||
        pyStartsWith (pyLower u) (pyChars "tel:")) = false)
    (hhash : '#' ∉ u)
    (hbase : base ≠ [])
    (b : ParseResult) (hb : urlparse base [] = .ok b)
    (r : ParseResult) (hr : urlparse u b.scheme = .ok r)
    (hsch : r.scheme = b.scheme) (hrel : r.scheme ∈ usesRelative)
    (hnloc : r.scheme ∈ usesNetloc) (hnet : r.netloc ≠ [])
    (hfix : urlunparse r.scheme r.netloc r.path r.params r.query r.fragment = u) :
    normalize_href base u = .ok (some u) := by
  have hjoin : urljoin base u = .ok u := by
    unfold urljoin
    rw [if_neg hbase, if_neg hne]
    simp only [Bind.bind, Except.bind, hb, hr]
    rw [if_neg (by push_neg; exact ⟨hsch, hrel⟩)]
    rw [if_pos ⟨hnloc, hnet⟩]
    rw [hfix]
  have hdefrag : urldefrag u = .ok u := by
    unfold urldefrag
    rw [if_neg ?_]
    intro hcb
    exact absurd (List.elem_iff.mp (by simpa [List.contains] using hcb)) hhash
  unfold normalize_href
  rw [if_neg hne, hstrip, if_neg (by rw [hjunk]; simp)]
  simp [Bind.bind, Except.bind, hjoin, hdefrag]

/-- Witness for `normalize_href_idem_amended`: the worked example's output
`"https://x.com/a/b?id=1"` re-normalizes to itself. -/
theorem normalize_href_idem_amended_witness :
    normalize_href (pyChars "https://x.com/a/") (pyChars "https://x.com/a/b?id=1") =
      .ok (some (pyChars "https://x.com/a/b?id=1")) := by
  exact normalize_href_idem_amended (pyChars "https://x.com/a/") (pyChars "b?id=1#frag")
    (pyChars "https://x.com/a/b?id=1")
    (by decide) (by decide) (by decide) (by decide) (by decide) (by decide)
    ⟨pyChars "https", pyChars "x.com", pyChars "/a/", [], [], []⟩ (by decide)
    ⟨pyChars "https", pyChars "x.com", pyChars "/a/b", [], pyChars "id=1", []⟩ (by decide)
    (by decide) (by decide) (by decide) (by decide) (by decide)

/-! ## `click_next` (Next-button advance with change detection) -/

/-- Truthiness of a Python `str | None` value. -/
def pyTruthy : Option PyStr → Bool
  | none => false
  | some s => !s.isEmpty

/-- The `aria_disabled and aria_disabled.lower() in ("true", "1")` test. -/
def ariaDisabledTruthy : Option PyStr → Bool
  | none => false
  | some s => !s.isEmpty && (pyLower s == pyChars "true" || pyLower s == pyChars "1")

/-- Observable answers the page gives during one `click_next` call. -/
structure ClickNextEnv where
  btnFound : Bool
  visibleOk : Bool
  visible : Bool
  ariaOk : Bool
  ariaDisabled : Option PyStr
  oldUrl : PyStr
  clickOk : Bool
  newUrl : PyStr
  newSig : Option PyStr
deriving DecidableEq, Repr

/-- `BaseExtractor.click_next(page, prev_signature)` from `crawler.py`. -/
def click_next (env : ClickNextEnv) (prevSignature : Option PyStr) :
    Bool × Option PyStr :=
  if env.btnFound = false then (false, prevSignature)
  else if env.visibleOk = false then (false, prevSignature)
  else if env.visible = false then (false, prevSignature)
  else if env.ariaOk && ariaDisabledTruthy env.ariaDisabled then (false, prevSignature)
  else if env.clickOk = false then (false, prevSignature)
  else if env.newUrl ≠ env.oldUrl then (true, env.newSig)
  else if pyTruthy prevSignature && pyTruthy env.newSig &&
      decide (env.newSig ≠ prevSignature) then (true, env.newSig)
  else (false, env.newSig)

/-- C3 counterexample: a visible, enabled Next control, a successful click,
an unchanged URL, no pre-click Signature, and a post-click Signature: the
Signatures differ (`none` versus `some`) yet `click_next` reports no-advance,
refuting the claimed iff. -/
def c3Env : ClickNextEnv :=
  ⟨true, true, true, true, none, pyChars "https://x.com/jobs", true,
   pyChars "https://x.com/jobs", some (pyChars "Software Engineer::/job/2")⟩

theorem click_next_counterexample :
    c3Env.btnFound = true ∧ c3Env.visible = true ∧
    ariaDisabledTruthy c3Env.ariaDisabled = false ∧ c3Env.clickOk = true ∧
    c3Env.newUrl = c3Env.oldUrl ∧
    c3Env.newSig ≠ (none : Option PyStr) ∧
    click_next c3Env none =
      (false, some (pyChars "Software Engineer::/job/2")) := by
  refine ⟨rfl, rfl, rfl, rfl, by decide, by decide, by decide⟩

/-- C3 (amended): on a found, visible, enabled Next control whose click
succeeds, the advance is reported successful iff the URL changed, or both the
pre-click and the recomputed Signatures are present (non-null, non-empty) and
differ; in every other such case it reports no-advance and hands back the
recomputed Signature. -/
theorem click_next_amended (env : ClickNextEnv) (prevSig : Option PyStr)
    (hf : env.btnFound = true) (hvo : env.visibleOk = true)
    (hv : env.visible = true)
    (ha : (env.ariaOk && ariaDisabledTruthy env.ariaDisabled) = false)
    (hc : env.clickOk = true) :
    ((click_next env prevSig).1 = true ↔
      env.newUrl ≠ env.oldUrl ∨
        (pyTruthy prevSig = true ∧ pyTruthy env.newSig = true ∧
          env.newSig ≠ prevSig)) ∧
    (click_next env prevSig).2 = env.newSig := by
  unfold click_next
  rw [hf, hvo, hv, ha, hc]
  simp only [Bool.false_eq_true, if_false, Bool.true_eq_false]
  by_cases hu : env.newUrl ≠ env.oldUrl
  · simp [hu]
  · rw [if_neg hu]
    by_cases hs : (pyTruthy prevSig && pyTruthy env.newSig &&
        decide (env.newSig ≠ prevSig)) = true
    · simp only [hs, if_true]
      simp only [Bool.and_eq_true, decide_eq_true_eq] at hs
      simp [hu, hs.1.1, hs.1.2, hs.2]
    · rw [if_neg (by simpa using hs)]
      refine ⟨⟨fun hfalse => absurd hfalse (by simp), ?_⟩, rfl⟩
      rintro (h | ⟨h1, h2, h3⟩)
      · exact absurd h hu
      · exact absurd
          (by simp [h1, h2, h3] :
            (pyTruthy prevSig && pyTruthy env.newSig &&
              decide (env.newSig ≠ prevSig)) = true) hs

/-- A URL-changing successful click, used as the witness environment. -/
def c3EnvAdvance : ClickNextEnv :=
  ⟨true, true, true, true, none, pyChars "https://x.com/jobs", true,
   pyChars "https://x.com/jobs?page=2", some (pyChars "Software Engineer::/job/9")⟩

/-- Witness for `click_next_amended`: a URL-changing click advances. -/
theorem click_next_amended_witness :
    (click_next c3EnvAdvance none).1 = true := by
  exact (click_next_amended c3EnvAdvance none (by decide) (by decide) (by decide)
    (by decide) (by decide)).1.mpr (Or.inl (by decide))

/-! ## Input-based location-filter tier
(`_type_united_and_select_us` and `apply_location_filter.select_us_from_input`) -/

/-- Side effects issued while driving the location input. -/
inductive LocEvent where
  | typedQuery
  | clickedUS
  | pressedEnter
  | triedApply
deriving DecidableEq, Repr

/-- Observable answers the page gives while driving the location input. -/
structure LocEnv where
  typeOk : Bool
  kbTypeOk : Bool
  suggestionsAppear : Bool
  options : List PyStr
  usClickOk : Bool
  enterOk : Bool
deriving DecidableEq, Repr

/-- The `has_text=re.compile(r"\bUnited States\b", re.I)` filter on an
option's text. -/
def usOptionMatch (txt : PyStr) : Bool :=
  wordBoundarySearch (pyLower txt) (pyChars "united states")

/-- `BaseExtractor._type_united_and_select_us` from `crawler.py` at its only
call site (query `"United"`, pattern `\bUnited States\b`): returns whether the
"United States" suggestion was clicked, plus the events issued. Raises
(`Except.error`) only when both the locator-typing and the keyboard-typing of
the query fail. -/
def typeUnitedAndSelectUS (env : LocEnv) : Except Unit (Bool × List LocEvent) :=
  if env.typeOk = false ∧ env.kbTypeOk = false then .error ()
  else if env.suggestionsAppear = false then .ok (false, [LocEvent.typedQuery])
  else if (env.options.filter usOptionMatch) ≠ [] then
    if env.usClickOk then .ok (true, [LocEvent.typedQuery, LocEvent.clickedUS])
    else .ok (false, [LocEvent.typedQuery])
  else .ok (false, [LocEvent.typedQuery])

/-- `select_us_from_input` (the local helper of `apply_location_filter`)
from `crawler.py`: on helper success, best-effort Apply click and report
success; otherwise fall back to pressing Enter, then Apply, and report
success iff the press succeeded. -/
def select_us_from_input (env : LocEnv) : Except Unit (Bool × List LocEvent) :=
  match typeUnitedAndSelectUS env with
  | .error e => .error e
  | .ok (picked, ev) =>
    if picked then .ok (true, ev ++ [LocEvent.triedApply])
    else if env.enterOk then
      .ok (true, ev ++ [LocEvent.pressedEnter, LocEvent.triedApply])
    else .ok (false, ev)

/-- C2 counterexample: suggestions appear and none matches "United States",
yet the input tier presses Enter (the fallback fires whenever the helper
failed, not only on suggestion timeout) and even reports success. -/
def c2Env : LocEnv := ⟨true, true, true, [pyChars "Germany"], true, true⟩

theorem location_filter_no_submit_counterexample :
    c2Env.suggestionsAppear = true ∧
    c2Env.options.filter usOptionMatch = [] ∧
    select_us_from_input c2Env =
      .ok (true, [LocEvent.typedQuery, LocEvent.pressedEnter, LocEvent.triedApply]) ∧
    LocEvent.pressedEnter ∈
      [LocEvent.typedQuery, LocEvent.pressedEnter, LocEvent.triedApply] := by
  refine ⟨rfl, by decide, by decide, by decide⟩

/-- C2 (amended): when the suggestion list appears but no suggestion matches
the word-boundary pattern "United States", the helper
`_type_united_and_select_us` reports failure without pressing any key; the
enclosing tier `select_us_from_input` then presses Enter as a fallback — the
same fallback used when no suggestions appear — and reports success exactly
when the press succeeds. -/
theorem location_filter_no_match_amended (env : LocEnv)
    (htype : env.typeOk = true ∨ env.kbTypeOk = true)
    (happ : env.suggestionsAppear = true)
    (hnone : env.options.filter usOptionMatch = []) :
    typeUnitedAndSelectUS env = .ok (false, [LocEvent.typedQuery]) ∧
    select_us_from_input env =
      (if env.enterOk then
        .ok (true, [LocEvent.typedQuery, LocEvent.pressedEnter, LocEvent.triedApply])
      else .ok (false, [LocEvent.typedQuery])) := by
  have hnotboth : ¬ (env.typeOk = false ∧ env.kbTypeOk = false) := by
    rcases htype with h | h <;> simp [h]
  have hhelper : typeUnitedAndSelectUS env = .ok (false, [LocEvent.typedQuery]) := by
    unfold typeUnitedAndSelectUS
    rw [if_neg hnotboth, if_neg (by simp [happ]), if_neg (by simp [hnone])]
  refine ⟨hhelper, ?_⟩
  unfold select_us_from_input
  rw [hhelper]
  by_cases he : env.enterOk
  · simp [he]
  · simp [he]

/-- Witness for `location_filter_no_match_amended` at the counterexample
environment. -/
theorem location_filter_no_match_amended_witness :
    typeUnitedAndSelectUS c2Env = .ok (false, [LocEvent.typedQuery]) :=
  (location_filter_no_match_amended c2Env (Or.inl rfl) rfl (by decide)).1

/-! ## Search submission (`_type_prefix_search_and_submit`) -/

/-- Side effects issued during one search submission. -/
inductive SEvent where
  | cleared
  | typed (s : PyStr)
  | clickedSuggestion (i : Nat)
  | pressedEnter
deriving DecidableEq, Repr

/-- Observable answers the page gives during one search submission. An option
text of `none` models `opt.inner_text()` raising, which aborts the whole
suggestion block (`except: pass`). -/
structure SearchEnv where
  typeFirstOk : Bool
  kbTypeFirstOk : Bool
  suggestionsAppear : Bool
  options : List (Option PyStr)
  optClickOk : Bool
  typeRestOk : Bool
  kbTypeRestOk : Bool
  enterOk : Bool
deriving DecidableEq, Repr

/-- Helper for `collapseWs`: the flag records whether the previous character
was whitespace (so the current run is already represented). -/
def collapseWsAux : Bool → PyStr → PyStr
  | _, [] => []
  | prevWs, c :: rest =>
    if isPyWs c then
      if prevWs then collapseWsAux true rest
      else ' ' :: collapseWsAux true rest
    else c :: collapseWsAux false rest

/-- `re.sub(r"\s+", " ", s)`: collapse each whitespace run to one space. -/
def collapseWs (s : PyStr) : PyStr := collapseWsAux false s

/-- `re.sub(r"\s+", " ", s).strip().lower()`, the normalization used for both
the wanted query and each suggestion text. -/
def normText (s : PyStr) : PyStr := pyLower (pyStrip (collapseWs s))

/-- The strict suggestion scan: first index `i < fuel` whose stripped,
normalized text equals `want`. Result `none` models the scan aborting because
`inner_text` raised; `some none` is "no match"; `some (some i)` is a match at
`i`. -/
def scanOptions : List (Option PyStr) → PyStr → Nat → Nat → Option (Option Nat)
  | _, _, _, 0 => some none
  | [], _, _, _ + 1 => some none
  | o :: rest, want, i, fuel + 1 =>
    match o with
    | none => none
    | some raw =>
      if normText (pyStrip raw) = want then some (some i)
      else scanOptions rest want (i + 1) fuel

/-- The strict suggestion phase: the first of the (at most 25) scanned options
whose normalized text equals the normalized query, clicked if the click
succeeds; every failure mode (scan abort, no match, failed click) leaves the
suggestion unclicked. -/
def strictClicked (env : SearchEnv) (query : PyStr) : Option Nat :=
  match scanOptions env.options (normText query) 0 (min env.options.length 25) with
  | some (some i) => if env.optClickOk then some i else none
  | _ => none

/-- The non-strict suggestion phase (`has_text` contains-match); present for
fidelity, never used by the crawler's callers. -/
def containsClicked (env : SearchEnv) (query : PyStr) : Option Nat :=
  match (env.options.map (fun o =>
      match o with
      | some raw => pyContains (pyLower raw) (pyLower query)
      | none => false)).findIdx? (· = true) with
  | some i => if env.optClickOk then some i else none
  | none => none

/-- The suggestion phase of `_type_prefix_search_and_submit`: which option, if
any, was clicked. -/
def suggestionClicked (env : SearchEnv) (query : PyStr) (strict : Bool) :
    Option Nat :=
  if env.suggestionsAppear = false then none
  else if strict then strictClicked env query
  else containsClicked env query

/-- `BaseExtractor._type_prefix_search_and_submit` from `crawler.py` with the
defaults its callers use (`prefix_len=4`, `strict_suggestion=True`). Returns
`none` when the un-guarded keyboard fallback while typing the remaining
characters raises (propagating), else `some` of the Python return value,
together with the events issued. -/
def typeSearchAndSubmit (env : SearchEnv) (query : PyStr) (strict : Bool) :
    Option Bool × List SEvent :=
  if query = [] then (some false, [])
  else
    let plen := max 1 (min 4 query.length)
    let pre := query.take plen
    let rest := query.drop plen
    if env.typeFirstOk = false ∧ env.kbTypeFirstOk = false then
      (some false, [SEvent.cleared])
    else
      let ev := [SEvent.cleared, SEvent.typed pre]
      match suggestionClicked env query strict with
      | some i => (some true, ev ++ [SEvent.clickedSuggestion i])
      | none =>
        if rest ≠ [] then
          if env.typeRestOk = false ∧ env.kbTypeRestOk = false then (none, ev)
          else
            let ev := ev ++ [SEvent.typed rest]
            if env.enterOk then (some true, ev ++ [SEvent.pressedEnter])
            else (some false, ev)
        else
          if env.enterOk then (some true, ev ++ [SEvent.pressedEnter])
          else (some false, ev)

/-- Concatenation of all text typed into the search input, in order. -/
def typedConcat : List SEvent → PyStr
  | [] => []
  | SEvent.typed s :: rest => s ++ typedConcat rest
  | _ :: rest => typedConcat rest

/-- Events issued strictly before the confirm key. -/
def beforeEnter (ev : List SEvent) : List SEvent :=
  ev.takeWhile (fun e => e != SEvent.pressedEnter)

lemma scanOptions_spec :
    ∀ (opts : List (Option PyStr)) (want : PyStr) (i fuel j : Nat),
    scanOptions opts want i fuel = some (some j) →
    ∃ raw, opts.get? (j - i) = some (some raw) ∧
      normText (pyStrip raw) = want ∧ i ≤ j := by
  intro opts
  induction opts with
  | nil =>
    intro want i fuel j h
    cases fuel <;> simp [scanOptions] at h
  | cons o rest ih =>
    intro want i fuel j h
    cases fuel with
    | zero => simp [scanOptions] at h
    | succ f =>
      cases o with
      | none => simp [scanOptions] at h
      | some raw =>
        by_cases hm : normText (pyStrip raw) = want
        · simp only [scanOptions, hm, if_pos, Option.some.injEq] at h
          subst h
          exact ⟨raw, by simp, hm, Nat.le_refl _⟩
        · simp only [scanOptions, hm, if_neg, if_false] at h
          obtain ⟨raw2, hg, hn, hle⟩ := ih want (i + 1) f j h
          refine ⟨raw2, ?_, hn, by omega⟩
          have : j - i = (j - (i + 1)) + 1 := by omega
          rw [this]
          simpa using hg

lemma sev_bne_cleared : (SEvent.cleared != SEvent.pressedEnter) = true := rfl

lemma sev_bne_typed (s : PyStr) : (SEvent.typed s != SEvent.pressedEnter) = true := rfl

lemma sev_bne_clicked (i : Nat) :
    (SEvent.clickedSuggestion i != SEvent.pressedEnter) = true := rfl

lemma sev_bne_enter : (SEvent.pressedEnter != SEvent.pressedEnter) = false := rfl

/-- C8: during a strict search submission, the confirm key is only pressed
after the full query text has been typed (prefix then remainder concatenate to
the query), and a suggestion is clicked only when its collapsed, trimmed,
case-folded text equals the equally normalized full query — in which case no
confirm key is pressed. Submission never happens against a partial prefix. -/
theorem search_submit_discipline (env : SearchEnv) (query : PyStr) :
    (SEvent.pressedEnter ∈ (typeSearchAndSubmit env query true).2 →
      typedConcat (beforeEnter (typeSearchAndSubmit env query true).2) = query ∧
      ∀ i, SEvent.clickedSuggestion i ∉ (typeSearchAndSubmit env query true).2) ∧
    (∀ i, SEvent.clickedSuggestion i ∈ (typeSearchAndSubmit env query true).2 →
      (∃ raw, env.options.get? i = some (some raw) ∧
        normText (pyStrip raw) = normText query) ∧
      SEvent.pressedEnter ∉ (typeSearchAndSubmit env query true).2) := by
  by_cases hq : query = []
  · simp [typeSearchAndSubmit, hq]
  · have hsplit : query.take (max 1 (min 4 query.length)) ++
        query.drop (max 1 (min 4 query.length)) = query :=
      List.take_append_drop _ _
    by_cases htf : env.typeFirstOk = false ∧ env.kbTypeFirstOk = false
    · simp [typeSearchAndSubmit, hq, htf]
    · cases hC : suggestionClicked env query true with
      | some i =>
        have hfound : ∃ raw, env.options.get? i = some (some raw) ∧
            normText (pyStrip raw) = normText query := by
          unfold suggestionClicked strictClicked at hC
          by_cases happ : env.suggestionsAppear = false
          · rw [if_pos happ] at hC; exact absurd hC (by simp)
          · rw [if_neg happ, if_pos rfl] at hC
            cases hscan : scanOptions env.options (normText query) 0
                (min env.options.length 25) with
            | none => simp [hscan] at hC
            | some oj =>
              cases oj with
              | none => simp [hscan] at hC
              | some k =>
                simp only [hscan] at hC
                by_cases hck : env.optClickOk
                · rw [if_pos hck] at hC
                  injection hC with hC
                  subst hC
                  obtain ⟨raw, hg, hn, _⟩ :=
                    scanOptions_spec env.options (normText query) 0 _ k hscan
                  exact ⟨raw, by simpa using hg, hn⟩
                · rw [if_neg hck] at hC; exact absurd hC (by simp)
        simp only [typeSearchAndSubmit, if_neg hq, if_neg htf, hC]
        constructor
        · intro hmem
          exact absurd hmem (by simp)
        · intro j hmem
          have hji : j = i := by
            simp at hmem
            exact hmem
          subst hji
          exact ⟨hfound, by simp⟩
      | none =>
        simp only [typeSearchAndSubmit, if_neg hq, if_neg htf, hC]
        by_cases hrest : query.drop (max 1 (min 4 query.length)) ≠ []
        · rw [if_pos hrest]
          by_cases htr : env.typeRestOk = false ∧ env.kbTypeRestOk = false
          · simp [htr]
          · rw [if_neg htr]
            by_cases hent : env.enterOk
            · simp only [hent, if_true]
              refine ⟨fun _ => ⟨?_, by simp⟩, by simp⟩
              simp [beforeEnter, List.takeWhile, sev_bne_cleared, sev_bne_typed,
                sev_bne_enter, typedConcat, hsplit]
            · simp [hent]
        · rw [if_neg hrest]
          rw [Classical.not_not] at hrest
          have hpre : query.take (max 1 (min 4 query.length)) = query := by
            rw [hrest] at hsplit
            simpa using hsplit
          by_cases hent : env.enterOk
          · simp only [hent, if_true]
            refine ⟨fun _ => ⟨?_, by simp⟩, by simp⟩
            simp [beforeEnter, List.takeWhile, sev_bne_cleared, sev_bne_typed,
              sev_bne_enter, typedConcat, hpre]
          · simp [hent]

/-- Witness for `search_submit_discipline`: with no suggestions, the prefix
and the remainder of "software engineer" are both typed before Enter. -/
def c8Env : SearchEnv := ⟨true, true, false, [], true, true, true, true⟩

theorem search_submit_discipline_witness :
    typedConcat (beforeEnter
      (typeSearchAndSubmit c8Env (pyChars "software engineer") true).2) =
      pyChars "software engineer" :=
  ((search_submit_discipline c8Env (pyChars "software engineer")).1 (by decide)).1

/-! ## Direct scan (`DirectExtractor.extract`) -/

/-- A scanned anchor element: its `href` attribute (used both by the CSS
selectors and by `get_attribute`), its visible text, and whether the runtime
reads (`inner_text`/`get_attribute`) succeed. -/
structure Anchor where
  readOk : Bool
  text : PyStr
  href : Option PyStr
deriving DecidableEq, Repr

/-- `{title, url}` as produced by the extractors. -/
structure JobResult where
  title : PyStr
  url : PyStr
deriving DecidableEq, Repr

/-- Does the anchor's `href` attribute contain `pat` (CSS `a[href*=pat]`)? -/
def anchorSelHref (a : Anchor) (pat : PyStr) : Bool :=
  match a.href with
  | some h => pyContains h pat
  | none => false

/-- The fast-path link choice of `DirectExtractor.extract`:
`a[href*='/en/job/']` if any, else `a[href*='/job/']` if any, else `a[href]`. -/
def chooseLinks (anchors : List Anchor) : List Anchor :=
  let l1 := anchors.filter (fun a => anchorSelHref a (pyChars "/en/job/"))
  if l1 ≠ [] then l1
  else
    let l2 := anchors.filter (fun a => anchorSelHref a (pyChars "/job/"))
    if l2 ≠ [] then l2
    else anchors.filter (fun a => a.href.isSome)

/-- The scan loop of `DirectExtractor.extract`: read each anchor (skipping on
read failure), skip empty text/href, filter by `is_swe_role`, normalize the
href (a `ValueError` propagates), skip falsy or already-seen URLs, append
`{title, url}` otherwise. -/
def directScanLoop (baseUrl : PyStr) :
    List Anchor → List PyStr → List JobResult → Except Unit (List JobResult)
  | [], _, jobs => .ok jobs
  | a :: rest, seen, jobs =>
    if a.readOk = false then directScanLoop baseUrl rest seen jobs
    else
      match a.href with
      | none => directScanLoop baseUrl rest seen jobs
      | some href =>
        if pyStrip a.text = [] ∨ href = [] then directScanLoop baseUrl rest seen jobs
        else if is_swe_role (pyStrip a.text) = false then
          directScanLoop baseUrl rest seen jobs
        else
          match normalize_href baseUrl href with
          | .error e => .error e
          | .ok none => directScanLoop baseUrl rest seen jobs
          | .ok (some absUrl) =>
            if absUrl = [] ∨ absUrl ∈ seen then directScanLoop baseUrl rest seen jobs
            else directScanLoop baseUrl rest (absUrl :: seen)
                (jobs ++ [⟨pyStrip a.text, absUrl⟩])

/-- `DirectExtractor.extract(page, keywords)` from `crawler.py` (the
`keywords` argument is unused by the code). -/
def directExtract (baseUrl : PyStr) (anchors : List Anchor) :
    Except Unit (List JobResult) :=
  directScanLoop baseUrl (chooseLinks anchors) [] []

/-- Specification-side: the pre-deduplication candidate sequence, in scan
order — one `{title, url}` per anchor that passes every filter and
normalizes to a non-empty URL. -/
def scanCandidates (baseUrl : PyStr) (links : List Anchor) : List JobResult :=
  links.filterMap fun a =>
    if a.readOk = false then none
    else
      match a.href with
      | none => none
      | some href =>
        if pyStrip a.text = [] ∨ href = [] then none
        else if is_swe_role (pyStrip a.text) = false then none
        else
          match normalize_href baseUrl href with
          | .ok (some u) => if u = [] then none else some ⟨pyStrip a.text, u⟩
          | _ => none

/-- Specification-side: keep the first occurrence of each URL, in order. -/
def dedupFirstByUrl : List JobResult → List PyStr → List JobResult
  | [], _ => []
  | j :: rest, seen =>
    if j.url ∈ seen then dedupFirstByUrl rest seen
    else j :: dedupFirstByUrl rest (j.url :: seen)

lemma dedupFirstByUrl_nodup (l : List JobResult) (seen : List PyStr) :
    ((dedupFirstByUrl l seen).map (fun j => j.url)).Nodup ∧
    ∀ u ∈ (dedupFirstByUrl l seen).map (fun j => j.url), u ∉ seen := by
  induction l generalizing seen with
  | nil => simp [dedupFirstByUrl]
  | cons j rest ih =>
    by_cases hj : j.url ∈ seen
    · simpa [dedupFirstByUrl, hj] using ih seen
    · obtain ⟨ih1, ih2⟩ := ih (j.url :: seen)
      refine ⟨?_, ?_⟩
      · simp only [dedupFirstByUrl, hj, if_neg, if_false, List.map_cons,
          List.nodup_cons]
        exact ⟨fun hmem => by simpa using ih2 _ hmem, ih1⟩
      · intro u hu
        simp only [dedupFirstByUrl, hj, if_neg, if_false, List.map_cons,
          List.mem_cons] at hu
        rcases hu with h | h
        · exact h ▸ hj
        · intro hus
          exact ih2 u h (List.mem_cons_of_mem _ hus)

lemma directScanLoop_eq_dedup (baseUrl : PyStr) :
    ∀ (links : List Anchor) (seen : List PyStr) (acc jobs : List JobResult),
    directScanLoop baseUrl links seen acc = .ok jobs →
    jobs = acc ++ dedupFirstByUrl (scanCandidates baseUrl links) seen := by
  intro links
  induction links with
  | nil =>
    intro seen acc jobs h
    simp only [directScanLoop] at h
    injection h with h
    simp [scanCandidates, dedupFirstByUrl, h]
  | cons a rest ih =>
    intro seen acc jobs h
    by_cases hro : a.readOk = false
    · simp only [directScanLoop, hro, if_pos] at h
      simpa [scanCandidates, hro] using ih seen acc jobs h
    · cases hhref : a.href with
      | none =>
        simp only [directScanLoop, hro, if_neg, if_false, hhref] at h
        simpa [scanCandidates, hro, hhref] using ih seen acc jobs h
      | some href =>
        simp only [directScanLoop, hro, if_neg, if_false, hhref] at h
        by_cases hempty : pyStrip a.text = [] ∨ href = []
        · rw [if_pos hempty] at h
          simpa [scanCandidates, hro, hhref, hempty] using ih seen acc jobs h
        · rw [if_neg hempty] at h
          by_cases hrole : is_swe_role (pyStrip a.text) = false
          · rw [if_pos hrole] at h
            simpa [scanCandidates, hro, hhref, hempty, hrole] using
              ih seen acc jobs h
          · rw [if_neg hrole] at h
            cases hnorm : normalize_href baseUrl href with
            | error e =>
              rw [hnorm] at h
              exact absurd h (by simp)
            | ok ou =>
              cases ou with
              | none =>
                rw [hnorm] at h
                simpa [scanCandidates, hro, hhref, hempty, hrole, hnorm] using
                  ih seen acc jobs h
              | some u =>
                simp only [hnorm, Bool.true_eq_false, if_false] at h
                by_cases hseen : u = [] ∨ u ∈ seen
                · rw [if_pos hseen] at h
                  have := ih seen acc jobs h
                  rcases hseen with hnil | hmem
                  · simpa [scanCandidates, hro, hhref, hempty, hrole, hnorm,
                      hnil] using this
                  · simp only [scanCandidates, List.filterMap_cons, hro,
                      Bool.false_eq_true, if_false, if_neg, hhref, hempty,
                      hrole, hnorm]
                    simp only [scanCandidates] at this
                    rw [this]
                    by_cases hnil : u = []
                    · simp [hnil, dedupFirstByUrl]
                    · simp [hnil, dedupFirstByUrl, hmem]
                · rw [if_neg hseen] at h
                  push_neg at hseen
                  have := ih (u :: seen) (acc ++ [⟨pyStrip a.text, u⟩]) jobs h
                  simp only [scanCandidates, List.filterMap_cons, hro,
                    Bool.false_eq_true, if_false, if_neg, hhref, hempty, hrole,
                    hnorm]
                  simp only [scanCandidates] at this
                  rw [this]
                  simp [hseen.1, dedupFirstByUrl, hseen.2]

/-- C6: for every list a direct scan returns, it equals the first-seen
deduplication of the scan-order candidate sequence (so results appear in
first-seen order and the first-seen anchor contributes the title), the
returned URLs are pairwise distinct, and two anchors with identical
normalized URLs but different text yield exactly one JobResult. -/
theorem direct_scan_dedup (baseUrl : PyStr) (anchors : List Anchor)
    (jobs : List JobResult)
    (h : directExtract baseUrl anchors = .ok jobs) :
    jobs = dedupFirstByUrl (scanCandidates baseUrl (chooseLinks anchors)) [] ∧
    ((jobs.map (fun j => j.url)).Nodup ∧
      directExtract (pyChars "https://x.com/")
        [⟨true, pyChars "Software Engineer", some (pyChars "/job/1#a")⟩,
         ⟨true, pyChars "Backend Software Developer", some (pyChars "/job/1#b")⟩] =
        .ok [⟨pyChars "Software Engineer", pyChars "https://x.com/job/1"⟩]) := by
  have heq := directScanLoop_eq_dedup baseUrl (chooseLinks anchors) [] [] jobs h
  simp only [List.nil_append] at heq
  refine ⟨heq, ?_, by decide⟩
  rw [heq]
  exact (dedupFirstByUrl_nodup _ _).1

/-- Witness for `direct_scan_dedup` at the two-anchor deduplication example. -/
theorem direct_scan_dedup_witness :
    ((([⟨pyChars "Software Engineer", pyChars "https://x.com/job/1"⟩] :
        List JobResult).map (fun j => j.url)).Nodup) := by
  have h := direct_scan_dedup (pyChars "https://x.com/")
    [⟨true, pyChars "Software Engineer", some (pyChars "/job/1#a")⟩,
     ⟨true, pyChars "Backend Software Developer", some (pyChars "/job/1#b")⟩]
    [⟨pyChars "Software Engineer", pyChars "https://x.com/job/1"⟩] (by decide)
  exact h.2.1

/-! ## Search pagination sub-loop (`SearchExtractor.extract`) -/

/-- The per-phrase scan-then-advance sub-loop of `SearchExtractor.extract`:
at each iteration the visible page is scanned, then `page_no >= 10` resets the
counter to 1 and breaks; otherwise an advance (Next tier first, else numbered
tier — abstracted by `adv`, indexed by the number of advances so far) bumps
the counter, and failure to advance breaks. Returns the final page counter
and the total number of advances performed. -/
def searchSubLoop (adv : Nat → Bool) (pageNo t : Nat) : Nat × Nat :=
  if 10 ≤ pageNo then (1, t)
  else if adv t then searchSubLoop adv (pageNo + 1) (t + 1)
  else (pageNo, t)
termination_by 10 - pageNo

lemma searchSubLoop_eq (adv : Nat → Bool) (pageNo t : Nat) :
    searchSubLoop adv pageNo t =
      if 10 ≤ pageNo then (1, t)
      else if adv t then searchSubLoop adv (pageNo + 1) (t + 1)
      else (pageNo, t) := by
  rw [searchSubLoop]

/-- C1: a search-query sub-loop entered with the page counter in `[1, 9]`
(as every sub-loop is, starting from 1) performs at most 10 page advances;
it ends either by reaching the 10-page ceiling — in which case the counter
is reset to 1 before the next query phrase — or because no further advance
was possible, leaving the counter in `[1, 9]` again. -/
theorem search_pagination_ceiling (adv : Nat → Bool) (pageNo t : Nat)
    (h1 : 1 ≤ pageNo) (h9 : pageNo ≤ 9) :
    (searchSubLoop adv pageNo t).2 - t ≤ 10 ∧
    (((searchSubLoop adv pageNo t).1 = 1 ∧
        pageNo + ((searchSubLoop adv pageNo t).2 - t) = 10) ∨
      ((searchSubLoop adv pageNo t).1 = pageNo + ((searchSubLoop adv pageNo t).2 - t) ∧
        1 ≤ (searchSubLoop adv pageNo t).1 ∧ (searchSubLoop adv pageNo t).1 ≤ 9 ∧
        adv ((searchSubLoop adv pageNo t).2) = false)) := by
  have hmono : ∀ fuel pageNo t, 10 - pageNo ≤ fuel →
      t ≤ (searchSubLoop adv pageNo t).2 := by
    intro fuel
    induction fuel with
    | zero =>
      intro p t hf
      rw [searchSubLoop_eq, if_pos (by omega)]
    | succ f ih =>
      intro p t hf
      rw [searchSubLoop_eq]
      by_cases h10 : 10 ≤ p
      · rw [if_pos h10]
      · rw [if_neg h10]
        by_cases hadv : adv t
        · rw [if_pos hadv]
          exact Nat.le_trans (by omega) (ih (p + 1) (t + 1) (by omega))
        · rw [if_neg hadv]
  have main : ∀ fuel pageNo t, 10 - pageNo ≤ fuel → 1 ≤ pageNo → pageNo ≤ 9 →
      (searchSubLoop adv pageNo t).2 - t ≤ 10 - pageNo ∧
      (((searchSubLoop adv pageNo t).1 = 1 ∧
          pageNo + ((searchSubLoop adv pageNo t).2 - t) = 10) ∨
        ((searchSubLoop adv pageNo t).1 =
            pageNo + ((searchSubLoop adv pageNo t).2 - t) ∧
          1 ≤ (searchSubLoop adv pageNo t).1 ∧
          (searchSubLoop adv pageNo t).1 ≤ 9 ∧
          adv ((searchSubLoop adv pageNo t).2) = false)) := by
    intro fuel
    induction fuel with
    | zero => intro pageNo t hf hl hr; omega
    | succ f ih =>
      intro pageNo t hf hl hr
      rw [searchSubLoop_eq]
      rw [if_neg (by omega)]
      by_cases hadv : adv t
      · rw [if_pos hadv]
        by_cases hnine : pageNo + 1 ≤ 9
        · obtain ⟨ihb, ihc⟩ := ih (pageNo + 1) (t + 1) (by omega) (by omega) hnine
          have hge : t + 1 ≤ (searchSubLoop adv (pageNo + 1) (t + 1)).2 :=
            hmono (10 - (pageNo + 1)) (pageNo + 1) (t + 1) (Nat.le_refl _)
          refine ⟨by omega, ?_⟩
          rcases ihc with ⟨hc1, hc2⟩ | ⟨hc1, hc2, hc3, hc4⟩
          · exact Or.inl ⟨hc1, by omega⟩
          · exact Or.inr ⟨by omega, hc2, hc3, hc4⟩
        · have hp : pageNo = 9 := by omega
          subst hp
          rw [searchSubLoop_eq, if_pos (by omega)]
          exact ⟨by omega, Or.inl ⟨rfl, by omega⟩⟩
      · rw [if_neg hadv]
        refine ⟨by omega, Or.inr ⟨by omega, hl, hr, ?_⟩⟩
        simpa using hadv
  obtain ⟨hb, hc⟩ := main (10 - pageNo) pageNo t (Nat.le_refl _) h1 h9
  exact ⟨by omega, hc⟩

/-- Witness for `search_pagination_ceiling`: with a page that can always
advance, the first phrase's sub-loop performs exactly 9 advances (at most 10)
and resets the page counter to 1. -/
theorem search_pagination_ceiling_witness :
    (searchSubLoop (fun _ => true) 1 0).2 - 0 ≤ 10 ∧
    searchSubLoop (fun _ => true) 1 0 = (1, 9) := by
  refine ⟨(search_pagination_ceiling (fun _ => true) 1 0 (by omega) (by omega)).1, ?_⟩
  rw [searchSubLoop_eq]
  norm_num
  rw [searchSubLoop_eq]
  norm_num
  rw [searchSubLoop_eq]
  norm_num
  rw [searchSubLoop_eq]
  norm_num
  rw [searchSubLoop_eq]
  norm_num
  rw [searchSubLoop_eq]
  norm_num
  rw [searchSubLoop_eq]
  norm_num
  rw [searchSubLoop_eq]
  norm_num
  rw [searchSubLoop_eq]
  norm_num
  rw [searchSubLoop_eq]
  norm_num

/-! ## Strategy selection (`UniversalExtractor.extract`) -/

/-- The steps `UniversalExtractor.extract` can take, in invocation order. -/
inductive Strat where
  | location
  | search
  | pagination
  | scroll
  | direct
deriving DecidableEq, Repr

/-- The page and strategy outcomes `UniversalExtractor.extract` observes:
whether the location filter reported success (its result is discarded),
whether a search box / Next button / numeric pagination is detected, and the
lists the four strategies would return when invoked. -/
structure UniversalEnv where
  locResult : Bool
  searchBoxPresent : Bool
  searchResults : List JobResult
  nextBtn : Bool
  numericPag : Bool
  paginationResults : List JobResult
  scrollResults : List JobResult
  directResults : List JobResult
deriving DecidableEq, Repr

/-- `UniversalExtractor.extract(page, keywords)` from `crawler.py`, returning
the produced list together with the strategies invoked in order. -/
def universalExtract (env : UniversalEnv) : List JobResult × List Strat :=
  let inv1 := [Strat.location]
  if env.searchBoxPresent ∧ env.searchResults ≠ [] then
    (env.searchResults, inv1 ++ [Strat.search])
  else
    let inv2 := if env.searchBoxPresent then inv1 ++ [Strat.search] else inv1
    if (env.nextBtn ∨ env.numericPag) ∧ env.paginationResults ≠ [] then
      (env.paginationResults, inv2 ++ [Strat.pagination])
    else
      let inv3 := if env.nextBtn ∨ env.numericPag then inv2 ++ [Strat.pagination]
        else inv2
      if env.scrollResults ≠ [] then (env.scrollResults, inv3 ++ [Strat.scroll])
      else (env.directResults, inv3 ++ [Strat.scroll, Strat.direct])

/-- Specification-side: the applicable strategies, in priority order, with
the result each would yield. -/
def specStrategies (env : UniversalEnv) : List (Strat × List JobResult) :=
  (if env.searchBoxPresent then [(Strat.search, env.searchResults)] else []) ++
    (if env.nextBtn ∨ env.numericPag then
      [(Strat.pagination, env.paginationResults)] else []) ++
    [(Strat.scroll, env.scrollResults)]

/-- Specification-side: the result of the first applicable strategy with a
non-empty result, defaulting to the direct scan. -/
def specFirstNonEmpty (env : UniversalEnv) : List JobResult :=
  match (specStrategies env).find? (fun p => !p.2.isEmpty) with
  | some p => p.2
  | none => env.directResults

/-- Specification-side: the strategies invoked — the location filter first,
then the applicable strategies up to and including the first that yields a
non-empty list, then the direct scan when none did. -/
def specInvoked (env : UniversalEnv) : List Strat :=
  let l := specStrategies env
  Strat.location ::
    (if l.all (fun p => p.2.isEmpty) then l.map Prod.fst ++ [Strat.direct]
     else (l.takeWhile (fun p => p.2.isEmpty)).map Prod.fst ++
       [(l.find? (fun p => !p.2.isEmpty)).elim Strat.direct Prod.fst])

/-- C5: `UniversalExtractor.extract` applies the location filter first and
ignores its boolean result; it then tries Search (only if a search box was
detected), Pagination (only if a Next button or numeric pagination was
detected), Scroll, and a final direct scan, in that strict order, returning
the result of the first strategy that yields a non-empty list, invoking no
later strategy and merging nothing; when every earlier strategy yields
nothing it returns the direct scan's possibly empty result (the function is
total — nothing is raised). -/
theorem universal_extract_priority_chain (env : UniversalEnv) :
    (universalExtract env).1 = specFirstNonEmpty env ∧
    (universalExtract env).2 = specInvoked env ∧
    (∀ b, universalExtract { env with locResult := b } = universalExtract env) := by
  refine ⟨?_, ?_, fun b => rfl⟩ <;>
  · by_cases hsb : env.searchBoxPresent <;>
      by_cases hse : env.searchResults = [] <;>
        by_cases hnp : env.nextBtn ∨ env.numericPag <;>
          by_cases hpe : env.paginationResults = [] <;>
            by_cases hsc : env.scrollResults = [] <;>
              simp [universalExtract, specFirstNonEmpty, specInvoked,
                specStrategies, hsb, hse, hnp, hpe, hsc, List.isEmpty_iff]

/-- Witness for `universal_extract_priority_chain`: with no search box, no
pagination and no scroll growth, the selector falls through to the direct
scan and returns its (here empty) result. -/
def c5Env : UniversalEnv := ⟨true, false, [], false, false, [], [], []⟩

theorem universal_extract_priority_chain_witness :
    (universalExtract c5Env).1 = specFirstNonEmpty c5Env ∧
    (universalExtract c5Env).2 =
      [Strat.location, Strat.scroll, Strat.direct] := by
  refine ⟨(universal_extract_priority_chain c5Env).1, ?_⟩
  rw [(universal_extract_priority_chain c5Env).2.1]
  decide

end Crawler
